import Mathlib

/-!
Shallow embedding of the `SQLiteDocumentStore` class from
`src/haystack_sqlite/__init__.py` (the haystack-bm25-sqlite repository).

The SQLite engine itself (tables, triggers, the FTS5 virtual table and its
`bm25()` ranking function) is an external collaborator of the code under
verification.  It is modelled explicitly where the repository owns the
behaviour (the three triggers created by `_create_bm25_index`) and kept as a
parameter where the repository merely consumes it (the result set of the raw
BM25 `SELECT`, which is passed in as a function `ftsExec` from the query
string to the list of `(id, raw bm25 score)` rows, already ordered by the
`ORDER BY score` clause of the statement).

Raw relevance scores are modelled as real numbers; `expit` is the logistic
function from `haystack.utils.scipy_utils` used at line 213 of the source.
A Python `KeyError` is modelled by returning `Except.error "KeyError"`.
-/

namespace HaystackSqlite

/-- A row of the `document` table (columns used by the code under `src/`:
`rowid`, `id`, `content`, `content_type`, `vector_id`, `index`). -/
structure DocRow where
  rowid : Nat
  id : String
  content : String
  contentType : String
  vectorId : Option String
  index : String
  deriving DecidableEq

/-- State owned by a `SQLiteDocumentStore`: the default index name
(`self.index`), the `document` table, and the `document_fts` shadow index.
Each FTS entry is a pair `(rowid, indexed content)`: the tokens stored for a
row come from the `content` value supplied to the FTS insert, which is the
only column the triggers ever pass. -/
structure Store where
  index : String
  docs : List DocRow
  fts : List (Nat × String)

/-- A Document with the `score` attribute attached, as built inside
`SQLiteDocumentStore.query` (line 220). -/
structure ResultDoc where
  id : String
  content : String
  score : ℝ

/-- Python `str.startswith`, modelled over the character lists so that it
evaluates inside the kernel. -/
def startsWith (s pre : String) : Bool := pre.toList.isPrefixOf s.toList

/-- Observable initialization side effects of `__init__` (lines 55-66):
the `super().__init__` call that sets up the SQL engine/session, and the
`_create_bm25_index` call that creates the FTS table and its triggers. -/
inductive InitEffect where
  | superInit
  | createBM25Index
  deriving DecidableEq

/-- Embedding of `SQLiteDocumentStore.__init__` (lines 19-66): the url check happens
first (line 52) and raises `ValueError` before any other work; otherwise the
base class is initialized and the BM25 index created.  The returned list
records the side effects in the order they are performed. -/
def initStore (url : String) (index label_index : String) :
    List InitEffect × Except String Store :=
  if startsWith url "sqlite://" = false then
    ([], Except.error "Must be an SQLite database url")
  else
    ([InitEffect.superInit, InitEffect.createBM25Index],
     Except.ok { index := index, docs := [], fts := [] })

/-- The `(rowid, content)` shadow pair a document table row contributes to
the FTS index. -/
def pairOf (d : DocRow) : Nat × String := (d.rowid, d.content)

/-- Statement `INSERT INTO document_fts(rowid, content) VALUES (r, c)` — adds one
index entry (trigger bodies at lines 81 and 92). -/
def ftsInsert (fts : List (Nat × String)) (r : Nat) (c : String) :
    List (Nat × String) :=
  fts ++ [(r, c)]

/-- Statement `INSERT INTO document_fts(document_fts, rowid, content)
VALUES (delete, r, c)` — the FTS5 external-content delete command: removes
the index entry for rowid `r` whose indexed content is `c` (trigger bodies
at lines 86 and 91). -/
def ftsDelete (fts : List (Nat × String)) (r : Nat) (c : String) :
    List (Nat × String) :=
  fts.filter (fun e => !(e.1 == r && e.2 == c))

/-- The rowid SQLite assigns to a freshly inserted `document` row: one more
than the largest rowid in use. -/
def nextRowid (s : Store) : Nat :=
  (s.docs.map (fun d => d.rowid)).foldr max 0 + 1

/-- Document table mutations.  `insert` adds a new row (rowid assigned by
SQLite), `delete` removes the row with the given rowid, `update` rewrites
the `id` and `content` columns of the row with the given rowid. -/
inductive Op where
  | insert (id content contentType : String) (vectorId : Option String)
      (index : String)
  | delete (rid : Nat)
  | update (rid : Nat) (newId newContent : String)

/-- One document mutation together with the trigger bodies installed by
`_create_bm25_index` (lines 79-94): `document_ai` fires after insert,
`document_ad` after delete, `document_au` after update (delete of the old
content then insert of the new content, at the same rowid). -/
def applyOp (s : Store) : Op → Store
  | Op.insert id content ct vid idx =>
    let rid := nextRowid s
    { s with
      docs := s.docs ++ [⟨rid, id, content, ct, vid, idx⟩],
      fts := ftsInsert s.fts rid content }
  | Op.delete rid =>
    { s with
      docs := s.docs.filter (fun d => !(d.rowid == rid)),
      fts := (s.docs.filter (fun d => d.rowid == rid)).foldl
        (fun f d => ftsDelete f d.rowid d.content) s.fts }
  | Op.update rid newId newContent =>
    { s with
      docs := s.docs.map (fun d =>
        if d.rowid == rid then { d with id := newId, content := newContent }
        else d),
      fts := (s.docs.filter (fun d => d.rowid == rid)).foldl
        (fun f d => ftsInsert (ftsDelete f d.rowid d.content) d.rowid
          newContent) s.fts }

/-- A sequence of document mutations applied in order. -/
def applyOps (s : Store) (ops : List Op) : Store :=
  ops.foldl applyOp s

/-- The store right after construction on a fresh database. -/
def emptyStore : Store := { index := "document", docs := [], fts := [] }

/-- The `(identifier, content)` pairs a keyword query can surface from the
ranking index: one pair per FTS entry, with the matching done against the
indexed content and the identifier read back from the `document` table via
the `content_rowid` link (the FTS table is declared with
`content=document`, so column values are fetched from the document row
with the same rowid). -/
def visiblePairs (s : Store) : List (String × String) :=
  s.fts.filterMap (fun e =>
    (s.docs.find? (fun d => d.rowid == e.1)).map (fun d => (d.id, e.2)))

/-- Well-formedness invariant linking the FTS index to the document table:
the index entries are exactly the `(rowid, content)` pairs of the live rows
(as a multiset), and rowids are unique (they are the SQLite primary rowids
of a single table). -/
def Wf (s : Store) : Prop :=
  List.Perm s.fts (s.docs.map pairOf) ∧
    (s.docs.map (fun d => d.rowid)).Nodup

/-- The logistic squashing function `expit` imported from
`haystack.utils.scipy_utils` (the scipy logistic sigmoid). -/
noncomputable def expit (x : ℝ) : ℝ := 1 / (1 + Real.exp (-x))

/-- The score exposed for one raw BM25 result row (line 213):
`expit(score / 8)` when `scale_score` is set, the raw score otherwise.
No negation or other reorientation is applied to the raw score. -/
noncomputable def scoreTransform (scale_score : Bool) (raw : ℝ) : ℝ :=
  if scale_score then expit (raw / 8) else raw

/-- The `doc_scores` dictionary built at lines 212-215: one binding per raw
result row, in row order (a Python dict keeps the last binding for a
repeated key, which `dictGet` accounts for). -/
noncomputable def docScores (scale_score : Bool)
    (resultSet : List (String × ℝ)) : List (String × ℝ) :=
  resultSet.map (fun r => (r.1, scoreTransform scale_score r.2))

/-- Python dict lookup over the association list: the binding added last
wins, hence the lookup over the reversed list. -/
def dictGet (m : List (String × ℝ)) (k : String) : Option ℝ :=
  m.reverse.lookup k

/-- Python truthiness of an optional list argument: `None` and `[]` are
falsy, a non-empty list is truthy. -/
def optTruthy {α : Type} : Option (List α) → Bool
  | some (_ :: _) => true
  | _ => false

/-- Line 354, `index = index or self.index`: Python `or` falls back both
for `None` and for the falsy empty string. -/
def resolveIndex (store : Store) (index : Option String) : String :=
  match index with
  | none => store.index
  | some s => if s = "" then store.index else s

/-- Embedding of `SQLiteDocumentStore._query` (lines 336-397): the document
materializer.  The SQLAlchemy query chain filters, in source order, by the
index namespace (line 360), by `document_ids` when that list is truthy
(lines 362-363), by the compiled metadata filter when `filters` is truthy
(lines 365-369, the external `LogicalFilterClause` compiler is modelled as
the identifier predicate it produces), by absence of an embedding
(lines 371-372) and by `vector_ids` when truthy (lines 373-374).
The batching of lines 376-396 attaches metadata per batch and yields the
rows of the scan; it does not change which rows are produced, so the
embedding returns the filtered rows directly. -/
def _query (store : Store) (index : Option String)
    (filters : Option (String → Bool)) (vector_ids : Option (List String))
    (only_documents_without_embedding : Bool)
    (document_ids : Option (List String)) : List DocRow :=
  let idx := resolveIndex store index
  let q1 := store.docs.filter (fun d => d.index == idx)
  let q2 := if optTruthy document_ids then
      q1.filter (fun d => (document_ids.getD []).contains d.id)
    else q1
  let q3 := match filters with
    | some pred => q2.filter (fun d => pred d.id)
    | none => q2
  let q4 := if only_documents_without_embedding then
      q3.filter (fun d => d.vectorId == none)
    else q3
  if optTruthy vector_ids then
    q4.filter (fun d => (vector_ids.getD []).contains (d.vectorId.getD ""))
  else q4

/-- The loop at lines 218-221: for each materialized document, attach
`doc_scores[doc.id]` and append; a missing key raises `KeyError`, which
aborts the whole call. -/
def attachScores (scores : List (String × ℝ)) :
    List DocRow → Except String (List ResultDoc)
  | [] => Except.ok []
  | row :: rest =>
    match dictGet scores row.id with
    | some s =>
      (attachScores scores rest).map (fun ds => ⟨row.id, row.content, s⟩ :: ds)
    | none => Except.error "KeyError"

/-- The sort key relation of line 224: descending by score. -/
def scoreGe (a b : ResultDoc) : Prop := b.score ≤ a.score

noncomputable instance : DecidableRel scoreGe :=
  fun a b => Real.decidableLE b.score a.score

instance : IsTotal ResultDoc scoreGe := ⟨fun a b => le_total b.score a.score⟩

instance : IsTrans ResultDoc scoreGe := ⟨fun _ _ _ h1 h2 => le_trans h2 h1⟩

/-- Line 224, `docs.sort(key=lambda x: x.score, reverse=True)`: a stable
sort, descending by score. -/
noncomputable def sortByScoreDesc (l : List ResultDoc) : List ResultDoc :=
  l.insertionSort scoreGe

/-- Embedding of `SQLiteDocumentStore.query` (lines 96-230).  `ftsExec` is the external
SQLite execution of the BM25 statement at lines 201-207: it returns the
`(id, bm25 score)` rows matching the query string.  The pipeline is:
build `valid_doc_ids` and `doc_scores` from the result set (lines 210-215),
materialize via `_query` with `document_ids=valid_doc_ids` (line 219),
attach scores (line 220, may raise `KeyError`), sort descending by score
(line 224) and truncate to `top_k` when `top_k` is truthy (lines 227-228).
The `headers` and `custom_query` parameters are ignored with a warning
(lines 191-194) and are omitted; `all_terms_must_match` is accepted but
never read by the body. -/
noncomputable def query (store : Store)
    (ftsExec : String → List (String × ℝ)) (q : String)
    (filters : Option (String → Bool)) (top_k : Nat) (index : Option String)
    (all_terms_must_match : Bool) (scale_score : Bool) :
    Except String (List ResultDoc) :=
  match attachScores (docScores scale_score (ftsExec q))
      (_query store index filters none false
        (some ((ftsExec q).map Prod.fst))) with
  | Except.error e => Except.error e
  | Except.ok docs =>
    Except.ok (if top_k ≠ 0 then (sortByScoreDesc docs).take top_k
      else sortByScoreDesc docs)

/-- Embedding of `SQLiteDocumentStore.query_batch` (lines 232-334): one `query` call per
input string (line 332), forwarding only `query`, `top_k`, `index` and
`scale_score`; the `filters` and `all_terms_must_match` arguments received
by `query_batch` are not passed on, so `query` runs with its defaults
(`filters=None`, `all_terms_must_match=False`). -/
noncomputable def query_batch (store : Store)
    (ftsExec : String → List (String × ℝ)) (queries : List String)
    (filters : Option (String → Bool)) (top_k : Nat) (index : Option String)
    (all_terms_must_match : Bool) (scale_score : Bool) :
    List (Except String (List ResultDoc)) :=
  queries.map (fun q =>
    query store ftsExec q none top_k index false scale_score)

/-! ### Helper lemmas about the logistic function -/

theorem expit_strictMono : StrictMono expit := by
  intro a b hab
  unfold expit
  have h1 : (0:ℝ) < 1 + Real.exp (-a) := by positivity
  have h2 : (0:ℝ) < 1 + Real.exp (-b) := by positivity
  rw [div_lt_div_iff₀ h1 h2]
  have : Real.exp (-b) < Real.exp (-a) := Real.exp_lt_exp.mpr (by linarith)
  linarith

theorem expit_pos (x : ℝ) : 0 < expit x := by
  unfold expit; positivity

theorem expit_lt_one (x : ℝ) : expit x < 1 := by
  unfold expit
  have h1 : (0:ℝ) < 1 + Real.exp (-x) := by positivity
  rw [div_lt_one h1]
  have := Real.exp_pos (-x)
  linarith

theorem expit_zero : expit 0 = 1 / 2 := by
  unfold expit
  rw [neg_zero, Real.exp_zero]
  norm_num

/-! ### Claim theorems (part 1) -/

/-- C1: the claim requires the exposed `scale_score=true` score to be
reoriented so that the more relevant document (numerically smaller raw BM25
score) receives the numerically larger exposed score.  The code applies
`expit(raw / 8)` with no negation, which is strictly increasing in the raw
score, so at raw scores `-2` (more relevant) and `-1` (less relevant) the
more relevant document receives the strictly smaller exposed score: the
claim is false of the code. -/
theorem scaled_score_inverts_relevance_order :
    (-2 : ℝ) < (-1 : ℝ) ∧
      scoreTransform true (-2) < scoreTransform true (-1) := by
  refine ⟨by norm_num, ?_⟩
  simp only [scoreTransform, if_pos]
  exact expit_strictMono (by norm_num)

/-- C2: the claim says a query matching no documents returns an empty list
without error.  On a store holding one document, a query whose FTS result
set is empty instead raises `KeyError`: the empty `valid_doc_ids` list is
falsy, so `_query` applies no identifier restriction and materializes the
document, whose score lookup in the empty `doc_scores` dict then fails. -/
theorem no_match_query_raises_key_error :
    query { index := "document",
            docs := [⟨1, "d1", "hello cat", "text", none, "document"⟩],
            fts := [(1, "hello cat")] }
      (fun _ => []) "of the a an" none 10 none false true =
      Except.error "KeyError" := rfl

/-- C3: the claim says `query_batch` returns exactly what independent
`query` calls with identical parameters would.  On a store with one
document matching the keyword query and a metadata filter rejecting every
document, `query` with the filter returns `[]` while `query_batch` with the
same filter returns the document, because line 332 does not forward
`filters` (nor `all_terms_must_match`) to `query`. -/
theorem query_batch_drops_filters :
    query_batch { index := "document",
                  docs := [⟨1, "d1", "hello cat", "text", none, "document"⟩],
                  fts := [(1, "hello cat")] }
        (fun _ => [("d1", (-2 : ℝ))]) ["cat"] (some (fun _ => false)) 10
        none false false =
      [Except.ok [⟨"d1", "hello cat", (-2 : ℝ)⟩]] ∧
    query { index := "document",
            docs := [⟨1, "d1", "hello cat", "text", none, "document"⟩],
            fts := [(1, "hello cat")] }
        (fun _ => [("d1", (-2 : ℝ))]) "cat" (some (fun _ => false)) 10
        none false false =
      Except.ok [] ∧
    query_batch { index := "document",
                  docs := [⟨1, "d1", "hello cat", "text", none, "document"⟩],
                  fts := [(1, "hello cat")] }
        (fun _ => [("d1", (-2 : ℝ))]) ["cat"] (some (fun _ => false)) 10
        none false false ≠
      [query { index := "document",
               docs := [⟨1, "d1", "hello cat", "text", none, "document"⟩],
               fts := [(1, "hello cat")] }
        (fun _ => [("d1", (-2 : ℝ))]) "cat" (some (fun _ => false)) 10
        none false false] := by
  refine ⟨rfl, rfl, ?_⟩
  intro h
  rw [show query { index := "document",
                   docs := [⟨1, "d1", "hello cat", "text", none, "document"⟩],
                   fts := [(1, "hello cat")] }
        (fun _ => [("d1", (-2 : ℝ))]) "cat" (some (fun _ => false)) 10
        none false false = Except.ok [] from rfl] at h
  rw [show query_batch { index := "document",
                         docs := [⟨1, "d1", "hello cat", "text", none, "document"⟩],
                         fts := [(1, "hello cat")] }
        (fun _ => [("d1", (-2 : ℝ))]) ["cat"] (some (fun _ => false)) 10
        none false false =
      [Except.ok [⟨"d1", "hello cat", (-2 : ℝ)⟩]] from rfl] at h
  simp at h

/-- C4: the claim says `all_terms_must_match=true` switches the implicit
term combinator to AND and `false` to OR.  The code never reads the flag:
for every store, engine, query string and remaining parameters the two
calls are literally the same computation (the raw query string is handed
unchanged to the FTS5 MATCH, whose combinator is whatever FTS5 does by
default, namely implicit AND). -/
theorem query_ignores_all_terms_must_match (store : Store)
    (ftsExec : String → List (String × ℝ)) (q : String)
    (filters : Option (String → Bool)) (top_k : Nat)
    (index : Option String) (scale_score : Bool) :
    query store ftsExec q filters top_k index true scale_score =
      query store ftsExec q filters top_k index false scale_score := rfl

/-- C6: with `scale_score=true` the attached score is the logistic
squashing function applied to `raw / 8` (scale constant `c = 8`); the
mapping is strictly increasing in the raw score, lands in the open interval
`(0, 1)`, and sends raw score `0` to exactly `1/2`. -/
theorem scale_score_logistic_properties :
    (∀ r : ℝ, scoreTransform true r = expit (r / 8)) ∧
    StrictMono (scoreTransform true) ∧
    (∀ r : ℝ, 0 < scoreTransform true r ∧ scoreTransform true r < 1) ∧
    scoreTransform true 0 = 1 / 2 := by
  have hdef : ∀ r : ℝ, scoreTransform true r = expit (r / 8) := by
    intro r; simp [scoreTransform]
  refine ⟨hdef, ?_, ?_, ?_⟩
  · intro a b hab
    rw [hdef, hdef]
    exact expit_strictMono (by linarith)
  · intro r
    rw [hdef]
    exact ⟨expit_pos _, expit_lt_one _⟩
  · rw [hdef]
    norm_num
    exact expit_zero

/-- C9: a url that does not start with `sqlite://` makes construction fail
with the `ValueError` of line 53 before any initialization side effect: no
base-class initialization, no BM25 index or trigger creation, and no store
value is produced. -/
theorem invalid_url_fails_fast (url index label_index : String)
    (h : startsWith url "sqlite://" = false) :
    initStore url index label_index =
      ([], Except.error "Must be an SQLite database url") := by
  simp [initStore, h]

theorem invalid_url_fails_fast_witness :
    startsWith "postgresql://db" "sqlite://" = false ∧
    initStore "postgresql://db" "document" "label" =
      ([], Except.error "Must be an SQLite database url") :=
  ⟨rfl, invalid_url_fails_fast "postgresql://db" "document" "label" rfl⟩

/-- C10: `_query` called with an empty `document_ids` list behaves exactly
as if no identifier allow-list had been passed at all (the empty list is
falsy at line 362), for every store and every choice of the remaining
filter parameters — rather than yielding no documents. -/
theorem empty_document_ids_not_restricting (store : Store)
    (index : Option String) (filters : Option (String → Bool))
    (vector_ids : Option (List String))
    (only_documents_without_embedding : Bool) :
    _query store index filters vector_ids only_documents_without_embedding
        (some ([] : List String)) =
      _query store index filters vector_ids
        only_documents_without_embedding none := rfl

/-! ### Helper lemmas for the index-consistency invariant -/

theorem map_congr_mem {α β : Type} {f g : α → β} :
    ∀ {l : List α}, (∀ x ∈ l, f x = g x) → l.map f = l.map g := by
  intro l
  induction l with
  | nil => intro _; rfl
  | cons a t ih =>
    intro h
    simp only [List.map_cons]
    rw [h a (List.mem_cons_self a t), ih (fun x hx => h x (List.mem_cons_of_mem a hx))]

theorem le_foldr_max (l : List Nat) : ∀ r ∈ l, r ≤ l.foldr max 0 := by
  induction l with
  | nil => intro r hr; cases hr
  | cons a t ih =>
    intro r hr
    rw [List.foldr_cons]
    rcases List.mem_cons.mp hr with rfl | h
    · exact le_max_left _ _
    · exact le_trans (ih r h) (le_max_right _ _)

theorem nextRowid_fresh (s : Store) :
    nextRowid s ∉ s.docs.map (fun d => d.rowid) := by
  intro h
  have := le_foldr_max _ _ h
  simp only [nextRowid] at this
  omega

theorem filter_rowid_eq_of_mem {l : List DocRow}
    (hn : (l.map (fun d => d.rowid)).Nodup) {d : DocRow} (hd : d ∈ l) :
    l.filter (fun x => x.rowid == d.rowid) = [d] := by
  induction l with
  | nil => cases hd
  | cons a t ih =>
    rw [List.map_cons, List.nodup_cons] at hn
    rcases List.mem_cons.mp hd with rfl | hdt
    · rw [List.filter_cons_of_pos (by simp)]
      have ht : t.filter (fun x => x.rowid == d.rowid) = [] := by
        apply List.filter_eq_nil_iff.mpr
        intro x hx hxe
        rw [beq_iff_eq] at hxe
        exact hn.1 (hxe ▸ List.mem_map_of_mem (fun d => d.rowid) hx)
      rw [ht]
    · have hne : (a.rowid == d.rowid) = false := by
        rw [beq_eq_false_iff_ne]
        intro he
        exact hn.1 (he ▸ List.mem_map_of_mem (fun d => d.rowid) hdt)
      rw [List.filter_cons, hne]
      simp only [Bool.false_eq_true, if_false]
      exact ih hn.2 hdt

theorem find?_rowid_of_nodup {l : List DocRow}
    (hn : (l.map (fun d => d.rowid)).Nodup) {d : DocRow} (hd : d ∈ l) :
    l.find? (fun x => x.rowid == d.rowid) = some d := by
  induction l with
  | nil => cases hd
  | cons a t ih =>
    rw [List.map_cons, List.nodup_cons] at hn
    rcases List.mem_cons.mp hd with rfl | hdt
    · exact List.find?_cons_of_pos t (by simp)
    · rw [List.find?_cons_of_neg]
      · exact ih hn.2 hdt
      · simp only [beq_iff_eq]
        intro he
        exact hn.1 (he ▸ List.mem_map_of_mem (fun d => d.rowid) hdt)

theorem wf_insert (s : Store) (hw : Wf s) (id content ct : String)
    (vid : Option String) (idx : String) :
    Wf (applyOp s (Op.insert id content ct vid idx)) := by
  obtain ⟨hperm, hnodup⟩ := hw
  constructor
  · simp only [applyOp, ftsInsert, List.map_append]
    exact hperm.append_right _
  · simp only [applyOp, List.map_append, List.nodup_append]
    refine ⟨hnodup, List.nodup_singleton _, ?_⟩
    intro r hr hr2
    simp only [List.map_cons, List.map_nil, List.mem_cons,
      List.not_mem_nil, or_false] at hr2
    exact nextRowid_fresh s (hr2 ▸ hr)

theorem wf_delete (s : Store) (hw : Wf s) (rid : Nat) :
    Wf (applyOp s (Op.delete rid)) := by
  obtain ⟨hperm, hnodup⟩ := hw
  by_cases hmem : rid ∈ s.docs.map (fun d => d.rowid)
  · rcases List.mem_map.mp hmem with ⟨d, hd, rfl⟩
    have hfilter := filter_rowid_eq_of_mem hnodup hd
    constructor
    · simp only [applyOp, hfilter, List.foldl_cons, List.foldl_nil]
      have h1 : List.Perm (ftsDelete s.fts d.rowid d.content)
          ((s.docs.map pairOf).filter
            (fun e => !(e.1 == d.rowid && e.2 == d.content))) := by
        unfold ftsDelete
        exact hperm.filter _
      have h2 : (s.docs.map pairOf).filter
            (fun e => !(e.1 == d.rowid && e.2 == d.content)) =
          (s.docs.filter (fun x => !(x.rowid == d.rowid))).map pairOf := by
        rw [List.filter_map]
        congr 1
        apply List.filter_congr
        intro x hx
        simp only [Function.comp, pairOf]
        by_cases hxr : x.rowid = d.rowid
        · have : x = d :=
            List.inj_on_of_nodup_map hnodup hx hd hxr
          subst this
          simp
        · simp [hxr]
      exact h1.trans (h2 ▸ List.Perm.refl _)
    · simp only [applyOp]
      exact List.Nodup.sublist ((List.filter_sublist _).map _) hnodup
  · have hfilter : s.docs.filter (fun x => x.rowid == rid) = [] := by
      apply List.filter_eq_nil_iff.mpr
      intro x hx hxe
      rw [beq_iff_eq] at hxe
      exact hmem (hxe ▸ List.mem_map_of_mem (fun d => d.rowid) hx)
    have hkeep : s.docs.filter (fun x => !(x.rowid == rid)) = s.docs := by
      apply List.filter_eq_self.mpr
      intro x hx
      simp only [Bool.not_eq_true', beq_eq_false_iff_ne, ne_eq]
      intro hxe
      exact hmem (hxe ▸ List.mem_map_of_mem (fun d => d.rowid) hx)
    constructor
    · simp only [applyOp, hfilter, List.foldl_nil, hkeep]
      exact hperm
    · simp only [applyOp, hkeep]
      exact hnodup

theorem wf_update (s : Store) (hw : Wf s) (rid : Nat)
    (newId newContent : String) :
    Wf (applyOp s (Op.update rid newId newContent)) := by
  obtain ⟨hperm, hnodup⟩ := hw
  have hrow : ∀ x : DocRow,
      (if x.rowid == rid then
        { x with id := newId, content := newContent } else x).rowid =
      x.rowid := by
    intro x
    by_cases h : x.rowid == rid <;> simp [h]
  have hnodup2 : ((s.docs.map (fun x =>
      if x.rowid == rid then
        { x with id := newId, content := newContent } else x)).map
        (fun d => d.rowid)).Nodup := by
    rw [List.map_map]
    have heq : s.docs.map ((fun d => d.rowid) ∘ (fun x =>
        if x.rowid == rid then
          { x with id := newId, content := newContent } else x)) =
        s.docs.map (fun d => d.rowid) :=
      map_congr_mem (fun x _ => hrow x)
    rw [heq]
    exact hnodup
  by_cases hmem : rid ∈ s.docs.map (fun d => d.rowid)
  · rcases List.mem_map.mp hmem with ⟨d, hd, rfl⟩
    have hfilter := filter_rowid_eq_of_mem hnodup hd
    rcases List.append_of_mem hd with ⟨l₁, l₂, heq⟩
    have hmid : ((l₁ ++ d :: l₂).map (fun d => d.rowid)).Nodup := heq ▸ hnodup
    have hsplit : d.rowid ∉ l₁.map (fun d => d.rowid) ∧
        d.rowid ∉ l₂.map (fun d => d.rowid) := by
      rw [List.map_append, List.map_cons] at hmid
      have h3 := List.nodup_middle.mp (by simpa using hmid)
      rw [List.nodup_cons] at h3
      have h2 := h3.1
      rw [List.mem_append] at h2
      exact ⟨fun h => h2 (Or.inl h), fun h => h2 (Or.inr h)⟩
    have hl₁ : ∀ x ∈ l₁, ¬ x.rowid = d.rowid := by
      intro x hx he
      exact hsplit.1 (he ▸ List.mem_map_of_mem (fun d => d.rowid) hx)
    have hl₂ : ∀ x ∈ l₂, ¬ x.rowid = d.rowid := by
      intro x hx he
      exact hsplit.2 (he ▸ List.mem_map_of_mem (fun d => d.rowid) hx)
    constructor
    · simp only [applyOp, hfilter, List.foldl_cons, List.foldl_nil]
      unfold ftsInsert
      have h1 : List.Perm
          (ftsDelete s.fts d.rowid d.content ++ [(d.rowid, newContent)])
          ((s.docs.map pairOf).filter
              (fun e => !(e.1 == d.rowid && e.2 == d.content)) ++
            [(d.rowid, newContent)]) := by
        apply List.Perm.append_right
        unfold ftsDelete
        exact hperm.filter _
      have h2 : ((l₁ ++ d :: l₂).map pairOf).filter
            (fun e => !(e.1 == d.rowid && e.2 == d.content)) =
          l₁.map pairOf ++ l₂.map pairOf := by
        rw [List.filter_map]
        have h4 : (l₁ ++ d :: l₂).filter
            ((fun e : Nat × String =>
              !(e.1 == d.rowid && e.2 == d.content)) ∘ pairOf) =
            l₁ ++ l₂ := by
          rw [List.filter_append, List.filter_cons]
          have hdl : ((fun e : Nat × String =>
              !(e.1 == d.rowid && e.2 == d.content)) ∘ pairOf) d = false := by
            simp [Function.comp, pairOf]
          rw [hdl]
          simp only [Bool.false_eq_true, if_false]
          rw [List.filter_eq_self.mpr, List.filter_eq_self.mpr]
          · intro x hx
            simp [Function.comp, pairOf, hl₂ x hx]
          · intro x hx
            simp [Function.comp, pairOf, hl₁ x hx]
        rw [h4, List.map_append]
      have h3 : ((l₁ ++ d :: l₂).map (fun x =>
            if x.rowid == d.rowid then
              { x with id := newId, content := newContent } else x)).map
            pairOf =
          l₁.map pairOf ++ (d.rowid, newContent) :: l₂.map pairOf := by
        rw [List.map_append, List.map_cons, List.map_append, List.map_cons]
        have hu1 : l₁.map (fun x =>
            if x.rowid == d.rowid then
              { x with id := newId, content := newContent } else x) = l₁ := by
          have hp : ∀ x ∈ l₁, (fun x =>
              if x.rowid == d.rowid then
                { x with id := newId, content := newContent } else x) x =
              id x := by
            intro x hx
            simp [hl₁ x hx]
          rw [map_congr_mem hp, List.map_id]
        have hu2 : l₂.map (fun x =>
            if x.rowid == d.rowid then
              { x with id := newId, content := newContent } else x) = l₂ := by
          have hp : ∀ x ∈ l₂, (fun x =>
              if x.rowid == d.rowid then
                { x with id := newId, content := newContent } else x) x =
              id x := by
            intro x hx
            simp [hl₂ x hx]
          rw [map_congr_mem hp, List.map_id]
        rw [hu1, hu2]
        congr 1
        simp [pairOf]
    -- combine: left side permutes to right side
      rw [heq] at h1 ⊢
      rw [h3]
      refine h1.trans ?_
      rw [h2]
      exact (List.perm_append_singleton _ _).trans List.perm_middle.symm
    · simp only [applyOp]
      exact hnodup2
  · have hfilter : s.docs.filter (fun x => x.rowid == rid) = [] := by
      apply List.filter_eq_nil_iff.mpr
      intro x hx hxe
      rw [beq_iff_eq] at hxe
      exact hmem (hxe ▸ List.mem_map_of_mem (fun d => d.rowid) hx)
    have hkeep : s.docs.map (fun x =>
        if x.rowid == rid then
          { x with id := newId, content := newContent } else x) = s.docs := by
      have hp : ∀ x ∈ s.docs, (fun x =>
          if x.rowid == rid then
            { x with id := newId, content := newContent } else x) x =
          id x := by
        intro x hx
        have hxr : ¬ x.rowid = rid := by
          intro he
          exact hmem (he ▸ List.mem_map_of_mem (fun d => d.rowid) hx)
        simp [hxr]
      rw [map_congr_mem hp, List.map_id]
    constructor
    · simp only [applyOp, hfilter, List.foldl_nil, hkeep]
      exact hperm
    · simp only [applyOp, hkeep]
      exact hnodup

theorem wf_applyOp (s : Store) (hw : Wf s) (op : Op) : Wf (applyOp s op) := by
  cases op with
  | insert id content ct vid idx => exact wf_insert s hw id content ct vid idx
  | delete rid => exact wf_delete s hw rid
  | update rid newId newContent => exact wf_update s hw rid newId newContent

theorem wf_empty : Wf emptyStore := by
  constructor <;> simp [emptyStore]

theorem wf_applyOps (ops : List Op) :
    ∀ s : Store, Wf s → Wf (applyOps s ops) := by
  induction ops with
  | nil => intro s hw; exact hw
  | cons op rest ih =>
    intro s hw
    exact ih (applyOp s op) (wf_applyOp s hw op)

theorem visiblePairs_eq_live {s : Store} (hw : Wf s) (p : String × String) :
    p ∈ visiblePairs s ↔ p ∈ s.docs.map (fun d => (d.id, d.content)) := by
  obtain ⟨hperm, hnodup⟩ := hw
  constructor
  · intro hp
    rcases List.mem_filterMap.mp hp with ⟨e, he, hee⟩
    have he2 : e ∈ s.docs.map pairOf := hperm.mem_iff.mp he
    rcases List.mem_map.mp he2 with ⟨d0, hd0, rfl⟩
    rw [show (pairOf d0).1 = d0.rowid from rfl,
      find?_rowid_of_nodup hnodup hd0] at hee
    simp only [Option.map_some', Option.some_inj] at hee
    rw [← hee]
    exact List.mem_map_of_mem _ hd0
  · intro hp
    rcases List.mem_map.mp hp with ⟨d0, hd0, rfl⟩
    apply List.mem_filterMap.mpr
    refine ⟨pairOf d0, hperm.mem_iff.mpr (List.mem_map_of_mem _ hd0), ?_⟩
    rw [show (pairOf d0).1 = d0.rowid from rfl,
      find?_rowid_of_nodup hnodup hd0]
    rfl

/-- C5: starting from a freshly constructed store, after any sequence of
document insert/update/delete operations (each running the triggers
installed by `_create_bm25_index`) the FTS index entries are exactly the
`(rowid, content)` pairs of the live document rows — no orphaned index
entries, no stale content, exactly one entry per row — and consequently the
set of `(identifier, content)` pairs visible to a keyword query equals
exactly the set of `(identifier, content)` pairs of the live documents. -/
theorem index_consistency (ops : List Op) :
    List.Perm (applyOps emptyStore ops).fts
      ((applyOps emptyStore ops).docs.map pairOf) ∧
    ∀ p : String × String,
      p ∈ visiblePairs (applyOps emptyStore ops) ↔
        p ∈ (applyOps emptyStore ops).docs.map (fun d => (d.id, d.content)) := by
  have hw := wf_applyOps ops emptyStore wf_empty
  exact ⟨hw.1, fun p => visiblePairs_eq_live hw p⟩

/-! ### Helper lemmas for the query pipeline -/

theorem lookup_some_of_mem_keys {m : List (String × ℝ)} {k : String}
    (h : k ∈ m.map Prod.fst) : ∃ v, m.lookup k = some v := by
  induction m with
  | nil => simp at h
  | cons a t ih =>
    by_cases hk : k = a.1
    · exact ⟨a.2, by simp [List.lookup, hk]⟩
    · have h2 : k ∈ t.map Prod.fst := by
        rcases List.mem_map.mp h with ⟨x, hx, hfx⟩
        rcases List.mem_cons.mp hx with rfl | hxt
        · exact absurd hfx.symm hk
        · exact List.mem_map.mpr ⟨x, hxt, hfx⟩
      rcases ih h2 with ⟨v, hv⟩
      have hbeq : (k == a.1) = false := beq_eq_false_iff_ne.mpr hk
      exact ⟨v, by simp [List.lookup, hbeq, hv]⟩

theorem dictGet_some_of_mem_keys {m : List (String × ℝ)} {k : String}
    (h : k ∈ m.map Prod.fst) : ∃ v, dictGet m k = some v := by
  apply lookup_some_of_mem_keys
  rw [List.map_reverse, List.mem_reverse]
  exact h

theorem docScores_keys (b : Bool) (rs : List (String × ℝ)) :
    (docScores b rs).map Prod.fst = rs.map Prod.fst := by
  simp [docScores, List.map_map, Function.comp]

theorem attachScores_ok {scores : List (String × ℝ)} :
    ∀ {rows : List DocRow},
      (∀ r ∈ rows, ∃ v, dictGet scores r.id = some v) →
      ∃ out, attachScores scores rows = Except.ok out ∧
        ∀ x ∈ out, ∃ r ∈ rows, x.id = r.id := by
  intro rows
  induction rows with
  | nil => intro _; exact ⟨[], rfl, by simp⟩
  | cons a t ih =>
    intro h
    rcases h a (List.mem_cons_self a t) with ⟨v, hv⟩
    rcases ih (fun r hr => h r (List.mem_cons_of_mem a hr)) with
      ⟨out, hout, hmem⟩
    refine ⟨⟨a.id, a.content, v⟩ :: out, ?_, ?_⟩
    · simp [attachScores, hv, hout, Except.map]
    · intro x hx
      rcases List.mem_cons.mp hx with rfl | hxt
      · exact ⟨a, List.mem_cons_self a t, rfl⟩
      · rcases hmem x hxt with ⟨r, hr, hid⟩
        exact ⟨r, List.mem_cons_of_mem a hr, hid⟩

theorem mem_query_with_ids (store : Store) (index : Option String)
    (pred : String → Bool) (ids : List String) (hids : ids ≠ []) :
    ∀ r ∈ _query store index (some pred) none false (some ids),
      r.id ∈ ids ∧ pred r.id = true := by
  obtain ⟨x, xs, rfl⟩ : ∃ x xs, ids = x :: xs := by
    cases ids with
    | nil => exact absurd rfl hids
    | cons x xs => exact ⟨x, xs, rfl⟩
  intro r hr
  have hr2 : r ∈ (((store.docs.filter
      (fun d => d.index == resolveIndex store index)).filter
      (fun d => (x :: xs).contains d.id)).filter
      (fun d => pred d.id)) := hr
  rw [List.mem_filter, List.mem_filter] at hr2
  exact ⟨List.mem_of_elem_eq_true hr2.1.2, hr2.2⟩

/-! ### Claim theorems (part 2) -/

/-- C7 counterexample: with an empty keyword match set and a metadata
filter accepting the stored document, the intersection of keyword matches
and filter matches is empty, yet `query` raises `KeyError` instead of
returning the empty list (line 362 treats the empty allow-list as absent,
so the filter-matching document is materialized and its score lookup
fails). -/
theorem filter_with_no_keyword_match_errors :
    query { index := "document",
            docs := [⟨2, "d2", "dog ran", "text", none, "document"⟩],
            fts := [(2, "dog ran")] }
      (fun _ => []) "cat" (some (fun _ => true)) 10 none false false =
      Except.error "KeyError" := rfl

/-- C7 (amended): provided at least one document matches the keyword query,
every returned document belongs both to the keyword matches and to the
documents satisfying the compiled metadata filter, and an empty
intersection yields an empty result list rather than an error.  (The
proviso is forced: with an empty keyword match set and a document passing
the filter, `query` raises `KeyError` instead — see the counterexample.) -/
theorem filter_intersection_of_nonempty_matches (store : Store)
    (ftsExec : String → List (String × ℝ)) (q : String)
    (pred : String → Bool) (top_k : Nat) (index : Option String)
    (atmm scale_score : Bool) (hne : ftsExec q ≠ []) :
    ∃ docs,
      query store ftsExec q (some pred) top_k index atmm scale_score =
        Except.ok docs ∧
      (∀ d ∈ docs, d.id ∈ (ftsExec q).map Prod.fst ∧ pred d.id = true) ∧
      ((∀ i ∈ (ftsExec q).map Prod.fst, pred i = false) → docs = []) := by
  have hids : (ftsExec q).map Prod.fst ≠ [] := by
    intro h
    exact hne (List.map_eq_nil_iff.mp h)
  have hrows := mem_query_with_ids store index pred
    ((ftsExec q).map Prod.fst) hids
  have hscore : ∀ r ∈ _query store index (some pred) none false
      (some ((ftsExec q).map Prod.fst)),
      ∃ v, dictGet (docScores scale_score (ftsExec q)) r.id = some v := by
    intro r hr
    apply dictGet_some_of_mem_keys
    rw [docScores_keys]
    exact (hrows r hr).1
  rcases attachScores_ok hscore with ⟨out, hout, hmem⟩
  refine ⟨if top_k ≠ 0 then (sortByScoreDesc out).take top_k
    else sortByScoreDesc out, ?_, ?_, ?_⟩
  · unfold query
    rw [hout]
  · intro d hd
    have hd2 : d ∈ sortByScoreDesc out := by
      by_cases hk : top_k ≠ 0
      · rw [if_pos hk] at hd
        exact List.take_subset _ _ hd
      · rw [if_neg hk] at hd
        exact hd
    have hd3 : d ∈ out :=
      (List.perm_insertionSort scoreGe out).mem_iff.mp hd2
    rcases hmem d hd3 with ⟨r, hr, hid⟩
    rw [hid]
    exact hrows r hr
  · intro hall
    have hempty : _query store index (some pred) none false
        (some ((ftsExec q).map Prod.fst)) = [] := by
      rw [List.eq_nil_iff_forall_not_mem]
      intro r hr
      have h1 := hrows r hr
      have h2 := hall r.id h1.1
      rw [h1.2] at h2
      exact Bool.noConfusion h2
    rw [hempty] at hout
    have hout2 : out = [] := by
      have h5 : (Except.ok ([] : List ResultDoc) :
          Except String (List ResultDoc)) = Except.ok out := hout
      simpa using h5.symm
    subst hout2
    simp [sortByScoreDesc]

theorem filter_intersection_witness :
    ∃ docs,
      query { index := "document",
              docs := [⟨1, "d1", "hello cat", "text", none, "document"⟩],
              fts := [(1, "hello cat")] }
          (fun _ => [("d1", (-2 : ℝ))]) "cat" (some (fun _ => false)) 10
          none false false =
        Except.ok docs ∧
      (∀ d ∈ docs,
        d.id ∈ ([("d1", (-2 : ℝ))].map Prod.fst) ∧
          (fun _ : String => false) d.id = true) ∧
      ((∀ i ∈ ([("d1", (-2 : ℝ))].map Prod.fst),
          (fun _ : String => false) i = false) → docs = []) :=
  filter_intersection_of_nonempty_matches _ _ _ _ _ _ _ _ (by simp)

/-- C8 counterexample: with `top_k = 5`, a store holding one document and a
query matching no documents (zero surviving matches), the claim demands
`min(5, 0) = 0` returned documents; the code instead raises `KeyError`. -/
theorem top_k_errors_on_no_match :
    query { index := "document",
            docs := [⟨1, "d1", "hello cat", "text", none, "document"⟩],
            fts := [(1, "hello cat")] }
      (fun _ => []) "zebra" none 5 none false false =
      Except.error "KeyError" := rfl

/-- C8 (amended): whenever `query` returns successfully with the scored
surviving matches `scored`, the returned list is the `top_k`-prefix of the
descending-by-score stable sort of `scored` when `top_k` is nonzero (hence
exactly `min(top_k, number of surviving matches)` documents, the highest
scoring ones), and the whole sorted list when `top_k` is falsy/zero.  (The
success proviso is forced: with an empty keyword match set but surviving
filter matches, `query` raises `KeyError` — see the counterexample.) -/
theorem top_k_truncation_of_successful_query (store : Store)
    (ftsExec : String → List (String × ℝ)) (q : String)
    (filters : Option (String → Bool)) (top_k : Nat)
    (index : Option String) (atmm scale_score : Bool)
    (scored : List ResultDoc)
    (hok : attachScores (docScores scale_score (ftsExec q))
        (_query store index filters none false
          (some ((ftsExec q).map Prod.fst))) = Except.ok scored) :
    query store ftsExec q filters top_k index atmm scale_score =
      Except.ok (if top_k ≠ 0 then (sortByScoreDesc scored).take top_k
        else sortByScoreDesc scored) ∧
    (top_k ≠ 0 →
      ((sortByScoreDesc scored).take top_k).length =
        min top_k scored.length) ∧
    (sortByScoreDesc scored).length = scored.length ∧
    List.Sorted scoreGe (sortByScoreDesc scored) ∧
    List.Perm (sortByScoreDesc scored) scored := by
  refine ⟨?_, ?_, ?_, ?_, ?_⟩
  · unfold query
    rw [hok]
  · intro _
    rw [List.length_take]
    congr 1
    exact (List.perm_insertionSort scoreGe scored).length_eq
  · exact (List.perm_insertionSort scoreGe scored).length_eq
  · exact List.sorted_insertionSort scoreGe scored
  · exact List.perm_insertionSort scoreGe scored

theorem top_k_truncation_witness :
    query { index := "document",
            docs := [⟨1, "d1", "hello cat", "text", none, "document"⟩],
            fts := [(1, "hello cat")] }
        (fun _ => [("d1", (-2 : ℝ))]) "cat" none 1 none false false =
      Except.ok (if 1 ≠ 0 then
        (sortByScoreDesc [⟨"d1", "hello cat", (-2 : ℝ)⟩]).take 1
        else sortByScoreDesc [⟨"d1", "hello cat", (-2 : ℝ)⟩]) ∧
    (1 ≠ 0 →
      ((sortByScoreDesc [⟨"d1", "hello cat", (-2 : ℝ)⟩]).take 1).length =
        min 1 ([⟨"d1", "hello cat", (-2 : ℝ)⟩] : List ResultDoc).length) ∧
    (sortByScoreDesc [⟨"d1", "hello cat", (-2 : ℝ)⟩]).length =
      ([⟨"d1", "hello cat", (-2 : ℝ)⟩] : List ResultDoc).length ∧
    List.Sorted scoreGe (sortByScoreDesc [⟨"d1", "hello cat", (-2 : ℝ)⟩]) ∧
    List.Perm (sortByScoreDesc [⟨"d1", "hello cat", (-2 : ℝ)⟩])
      [⟨"d1", "hello cat", (-2 : ℝ)⟩] :=
  top_k_truncation_of_successful_query _ _ _ _ _ _ _ _ _ rfl

end HaystackSqlite
